import Mathlib

/-
  Verification of the funcat indicator module (funcat/func.py).

  Series are embedded as Lean lists in buffer order: index 0 is the oldest
  element and the final element is the most recent bar, matching the numpy
  buffers the library stores.  Numeric buffers are lists of rationals; the
  float special values needed for the infinity-sanitisation claims are
  embedded as an explicit inductive type FVal.  Methods that mutate the
  buffer of an argument in place are embedded in state-passing style: they
  return the post-call content of that buffer together with their result.
-/

namespace Funcat

/-- Modelled from the spec: FormulaException is the sole error type of the
module.  A precondition violation is raised directly with a descriptive
message, while a failure of an underlying kernel is caught and re-raised
wrapped; the two modes are kept apart by the constructor. -/
inductive FormulaException where
  | direct (msg : String)
  | wrapped (msg : String)
deriving DecidableEq

/-- Modelled from the spec: fit_series (from funcat/time_series.py, not part
of the sources at hand) trims two sequences to their trailing overlapping
window, so both keep their most recent elements and have length equal to the
minimum of the two input lengths. -/
def fitSeries (a b : List α) : List α × List α :=
  let m := min a.length b.length
  (a.drop (a.length - m), b.drop (b.length - m))

/-- Modelled from the spec: indexing a series by a non-negative offset n
(written s[n] in the source, from funcat/time_series.py) looks back n
periods from the most recent point, producing the series with its last n
elements removed.  The comment on the CrossOver source line confirms that
s1[1].series is the one-period-lagged buffer. -/
def lagSeries (s : List α) (n : Nat) : List α :=
  s.take (s.length - n)

/-- Embedding of CrossOver from funcat/func.py: compares the trailing-aligned
buffers, compares the trailing-aligned one-period-lagged buffers, aligns the
two boolean series and combines them with logical and. -/
def CrossOver (s1 s2 : List ℚ) : List Bool :=
  let p := fitSeries s1 s2
  let cond1 := List.zipWith (fun x y => decide (y < x)) p.1 p.2
  let q := fitSeries (lagSeries s1 1) (lagSeries s2 1)
  let cond2 := List.zipWith (fun x y => decide (x ≤ y)) q.1 q.2
  let r := fitSeries cond1 cond2
  List.zipWith (fun x y => x && y) r.1 r.2

/-- Boolean form of the specified crossover signal at aligned position k+1 of
the trailing window of length m = min of the lengths: the current value of s1
exceeds s2 while one period prior s1 was at most s2.  This definition follows
the words of the spec and is compared against the CrossOver embedding. -/
def crossOverSpec (s1 s2 : List ℚ) (k : Nat) : Bool :=
  let m := min s1.length s2.length
  decide (s2.getD (s2.length - m + (k + 1)) 0 < s1.getD (s1.length - m + (k + 1)) 0) &&
  decide (s1.getD (s1.length - m + k) 0 ≤ s2.getD (s2.length - m + k) 0)

/-- Number of true entries of a boolean buffer; embeds len(s[s == True]). -/
def trueCount (s : List Bool) : Nat :=
  (s.filter (fun b => b == true)).length

/-- The trailing n elements of a buffer; embeds the python slice series[-n:]
for positive n. -/
def lastN (s : List α) (n : Nat) : List α :=
  s.drop (s.length - n)

/-- Embedding of the loop of count from funcat/func.py.  The first numeric
argument is the loop counter i of `for i in range(size - 1, 0, -1)`: while it
is positive the body stores the number of true entries of the trailing n
elements of the current buffer at index i of result and then truncates the
buffer by one; the iteration with i = 0 is never executed. -/
def countLoop (n : Nat) : Nat → List Bool → List Int → List Int
  | 0, _, result => result
  | j + 1, series, result =>
      countLoop n j series.dropLast
        (result.set (j + 1) (trueCount (lastN series n) : Int))

/-- Embedding of count from funcat/func.py: allocates an integer buffer of
size len(cond) - n (np.full raises for a negative size, which the source
wraps as a FormulaException) and runs the backward loop from size - 1 down
to, and excluding, index 0. -/
def count (cond : List Bool) (n : Nat) : Except FormulaException (List Int) :=
  if (cond.length : Int) - (n : Int) < 0 then
    Except.error (FormulaException.wrapped "ValueError: negative dimensions are not allowed")
  else
    Except.ok (countLoop n (cond.length - n - 1) cond
      (List.replicate (cond.length - n) (0 : Int)))

/-- Stated from the words of claim C1: an output of length len(cond) - n in
which position i holds the number of true values among the n boolean entries
ending at source index i + n.  This is the unique window assignment that is
consistent with the length len(cond) - n and with the final window of the
spec example; it is compared against the count embedding. -/
def countSpec (cond : List Bool) (n : Nat) : List Int :=
  (List.range (cond.length - n)).map
    (fun i => (trueCount ((cond.drop (i + 1)).take n) : Int))

/-- Extracts the payload of a successful Except value, defaulting to the
empty list. -/
def okValue : Except FormulaException (List α) → List α
  | Except.ok l => l
  | Except.error _ => []

/-- Embedding of minimum from funcat/func.py: an empty operand raises a
FormulaException directly (before any kernel is involved); otherwise the two
buffers are trailing-aligned and combined with the elementwise minimum. -/
def minimum (s1 s2 : List ℚ) : Except FormulaException (List ℚ) :=
  if s1.length = 0 ∨ s2.length = 0 then
    Except.error (FormulaException.direct "minimum size == 0")
  else
    let p := fitSeries s1 s2
    Except.ok (List.zipWith min p.1 p.2)

/-- Embedding of maximum from funcat/func.py: symmetric to minimum with the
elementwise maximum. -/
def maximum (s1 s2 : List ℚ) : Except FormulaException (List ℚ) :=
  if s1.length = 0 ∨ s2.length = 0 then
    Except.error (FormulaException.direct "maximum size == 0")
  else
    let p := fitSeries s1 s2
    Except.ok (List.zipWith max p.1 p.2)

/-- Modelled from the spec: rolling_window (from funcat/utils.py, not part of
the sources at hand) is the sliding-window primitive producing every
contiguous window of size n, len(s) - n + 1 windows in order. -/
def rollingWindow (s : List ℚ) (n : Nat) : List (List ℚ) :=
  (List.range (s.length + 1 - n)).map (fun i => (s.drop i).take n)

/-- Maximum of one window row, embedding np.max along axis 1; the empty row
never occurs for the window sizes admitted by the claims. -/
def rowMax : List ℚ → ℚ
  | [] => 0
  | x :: xs => xs.foldl max x

/-- Minimum of one window row, embedding np.min along axis 1. -/
def rowMin : List ℚ → ℚ
  | [] => 0
  | x :: xs => xs.foldl min x

/-- Embedding of hhv from funcat/func.py: the rolling maximum of every
window of size n.  The source also allocates a zero buffer of size
len(s) - n that is immediately overwritten by the windowed maximum and has
no effect on the result. -/
def hhv (s : List ℚ) (n : Nat) : List ℚ :=
  (rollingWindow s n).map rowMax

/-- Embedding of llv from funcat/func.py: the rolling minimum of every
window of size n. -/
def llv (s : List ℚ) (n : Nat) : List ℚ :=
  (rollingWindow s n).map rowMin

/-- Float values as far as the sanitisation logic observes them: finite
rationals, the two infinities and NaN.  Equality of an FVal with pinf
mirrors the numpy comparison v == np.inf, which is true exactly for +inf. -/
inductive FVal where
  | finite (q : ℚ)
  | pinf
  | ninf
  | nan
deriving DecidableEq

/-- Embedding of the sanitisation statement of OneArgumentSeries.__init__:
series[series == np.inf] = np.nan replaces exactly the entries equal to
+inf by NaN, in place. -/
def oneArgSanitize (series : List FVal) : List FVal :=
  series.map (fun v => if v = FVal.pinf then FVal.nan else v)

/-- Embedding of the two sanitisation statements of SumSeries.__init__:
entries equal to +inf and then entries equal to -inf are replaced by 0, in
place. -/
def sumSanitize (series : List FVal) : List FVal :=
  (series.map (fun v => if v = FVal.pinf then FVal.finite 0 else v)).map
    (fun v => if v = FVal.ninf then FVal.finite 0 else v)

/-- Embedding of the two sanitisation statements of AbsSeries.__init__,
identical to the ones of SumSeries. -/
def absSanitize (series : List FVal) : List FVal :=
  (series.map (fun v => if v = FVal.pinf then FVal.finite 0 else v)).map
    (fun v => if v = FVal.ninf then FVal.finite 0 else v)

/-- Elementwise absolute value, embedding np.abs on the float domain. -/
def FVal.abs : FVal → FVal
  | FVal.finite q => FVal.finite |q|
  | FVal.pinf => FVal.pinf
  | FVal.ninf => FVal.pinf
  | FVal.nan => FVal.nan

/-- Embedding of OneArgumentSeries.__init__ on a NumericSeries argument in
state-passing style: the first component is the content of the buffer of the
input series after the call (the sanitisation writes into it in place, since
series is an alias of the numpy array of the argument), the second the buffer
of the constructed series, obtained by the bound kernel self.func. -/
def oneArgInit (func : List FVal → Nat → List FVal) (series : List FVal) (arg : Nat) :
    List FVal × List FVal :=
  let mutated := oneArgSanitize series
  (mutated, func mutated arg)

/-- Embedding of SumSeries.__init__ on a NumericSeries argument in
state-passing style, with talib.SUM abstracted as the kernel argument. -/
def sumInit (sumKernel : List FVal → Nat → List FVal) (series : List FVal) (period : Nat) :
    List FVal × List FVal :=
  let mutated := sumSanitize series
  (mutated, sumKernel mutated period)

/-- Embedding of AbsSeries.__init__ on a NumericSeries argument in
state-passing style; np.abs is elementwise. -/
def absInit (series : List FVal) : List FVal × List FVal :=
  let mutated := absSanitize series
  (mutated, mutated.map FVal.abs)

/-- One bar of external market data; only the close field is read by the
MACD refresh. -/
structure Bar where
  close : ℚ
deriving DecidableEq

/-- The buffer of a MACDSeries: absent (series=None at construction), a
numeric oscillator buffer, or the raw bar structure assigned when the bar
source is empty. -/
inductive SeriesBuf where
  | missing
  | osc (xs : List ℚ)
  | rawBars (bars : List Bar)
deriving DecidableEq

/-- State of a MACDSeries: the three stored periods (kept in
extra_create_kwargs by the source), the buffer and the dynamic-update flag. -/
structure MACDSeries where
  fastperiod : Nat
  slowperiod : Nat
  signalperiod : Nat
  series : SeriesBuf
  dynamicUpdate : Bool
deriving DecidableEq

/-- Embedding of MACDSeries.__init__: stores the three periods, the initial
buffer and the dynamic-update flag.  The source defaults are 12, 26, 9,
series=None and dynamic_update=False. -/
def MACDSeries.init (fastperiod slowperiod signalperiod : Nat)
    (series : SeriesBuf) (dynamicUpdate : Bool) : MACDSeries :=
  ⟨fastperiod, slowperiod, signalperiod, series, dynamicUpdate⟩

/-- Embedding of MACDSeries.__call__ in state-passing style: the first
component is the receiver after the call (the body only builds and returns a
fresh instance, so the receiver is returned unchanged), the second the fresh
instance MACDSeries(fastperiod, slowperiod, signalperiod, dynamic_update=True)
whose buffer starts as None. -/
def MACDSeries.call (self : MACDSeries) (fastperiod slowperiod signalperiod : Nat) :
    MACDSeries × MACDSeries :=
  (self, MACDSeries.init fastperiod slowperiod signalperiod SeriesBuf.missing true)

/-- Type of the external three-output kernel talib.MACD: close buffer and the
three periods in, the DIF, DEM and OSC buffers out. -/
abbrev MACDKernel := List ℚ → Nat → Nat → Nat → List ℚ × List ℚ × List ℚ

/-- Embedding of MACDSeries._ensure_series_update: a dynamic series refetches
the bars; with at least one bar it runs the three-output kernel on the close
column, doubles the third output OSC in place and publishes it as the buffer;
with no bars it publishes the raw empty bar structure.  A non-dynamic series
is left untouched. -/
def MACDSeries.ensureSeriesUpdate (talibMACD : MACDKernel) (bars : List Bar)
    (self : MACDSeries) : MACDSeries :=
  if self.dynamicUpdate then
    if 0 < bars.length then
      let r := talibMACD (bars.map Bar.close) self.fastperiod self.slowperiod self.signalperiod
      { self with series := SeriesBuf.osc (r.2.2.map (fun x => 2 * x)) }
    else
      { self with series := SeriesBuf.rawBars bars }
  else self

/-! Helper lemmas shared by the claim theorems. -/

theorem getD_drop (l : List α) (i k : Nat) (d : α) :
    (l.drop i).getD k d = l.getD (i + k) d := by
  rw [List.getD_eq_getElem?_getD, List.getElem?_drop, List.getD_eq_getElem?_getD]

theorem getD_zipWith (f : α → β → γ) (a : List α) (b : List β) (k : Nat)
    (d1 : α) (d2 : β) (d3 : γ) (ha : k < a.length) (hb : k < b.length) :
    (List.zipWith f a b).getD k d3 = f (a.getD k d1) (b.getD k d2) := by
  rw [List.getD_eq_getElem?_getD, List.getElem?_zipWith,
      List.getElem?_eq_getElem ha, List.getElem?_eq_getElem hb,
      List.getD_eq_getElem?_getD, List.getD_eq_getElem?_getD,
      List.getElem?_eq_getElem ha, List.getElem?_eq_getElem hb]
  rfl

theorem map_ne_self_of_mem (f : α → α) (a : α) (l : List α)
    (ha : a ∈ l) (hf : ∀ v, f v ≠ a) : l.map f ≠ l := by
  intro h
  have hmem : a ∈ l.map f := by rw [h]; exact ha
  obtain ⟨v, _, hv⟩ := List.mem_map.1 hmem
  exact hf v hv

theorem foldl_max_mem (x : ℚ) (xs : List ℚ) : xs.foldl max x ∈ x :: xs := by
  induction xs generalizing x with
  | nil => simp [List.foldl]
  | cons y ys ih =>
    rw [List.foldl_cons]
    rcases List.mem_cons.1 (ih (max x y)) with h | h
    · rcases max_choice x y with h4 | h4
      · rw [h, h4]; exact List.mem_cons_self _ _
      · rw [h, h4]; exact List.mem_cons_of_mem _ (List.mem_cons_self _ _)
    · exact List.mem_cons_of_mem _ (List.mem_cons_of_mem _ h)

theorem le_foldl_max (x : ℚ) (xs : List ℚ) : ∀ y ∈ x :: xs, y ≤ xs.foldl max x := by
  induction xs generalizing x with
  | nil =>
    intro y hy
    rw [List.mem_singleton] at hy
    rw [hy]
    exact le_refl _
  | cons z zs ih =>
    intro y hy
    rw [List.foldl_cons]
    rcases List.mem_cons.1 hy with rfl | hy2
    · exact le_trans (le_max_left y z) (ih (max y z) _ (List.mem_cons_self _ _))
    · rcases List.mem_cons.1 hy2 with rfl | hy3
      · exact le_trans (le_max_right x y) (ih (max x y) _ (List.mem_cons_self _ _))
      · exact ih (max x z) y (List.mem_cons_of_mem _ hy3)

theorem foldl_min_mem (x : ℚ) (xs : List ℚ) : xs.foldl min x ∈ x :: xs := by
  induction xs generalizing x with
  | nil => simp [List.foldl]
  | cons y ys ih =>
    rw [List.foldl_cons]
    rcases List.mem_cons.1 (ih (min x y)) with h | h
    · rcases min_choice x y with h4 | h4
      · rw [h, h4]; exact List.mem_cons_self _ _
      · rw [h, h4]; exact List.mem_cons_of_mem _ (List.mem_cons_self _ _)
    · exact List.mem_cons_of_mem _ (List.mem_cons_of_mem _ h)

theorem foldl_min_le (x : ℚ) (xs : List ℚ) : ∀ y ∈ x :: xs, xs.foldl min x ≤ y := by
  induction xs generalizing x with
  | nil =>
    intro y hy
    rw [List.mem_singleton] at hy
    rw [hy]
    exact le_refl _
  | cons z zs ih =>
    intro y hy
    rw [List.foldl_cons]
    rcases List.mem_cons.1 hy with rfl | hy2
    · exact le_trans (ih (min y z) _ (List.mem_cons_self _ _)) (min_le_left y z)
    · rcases List.mem_cons.1 hy2 with rfl | hy3
      · exact le_trans (ih (min x y) _ (List.mem_cons_self _ _)) (min_le_right x y)
      · exact ih (min x z) y (List.mem_cons_of_mem _ hy3)

/-! Claim theorems. -/

/-- Claim C2, counterexample: for s1 = [1, 3, 5] and s2 = [2, 2, 2] the last
(most recent) position of the CrossOver output is False, not True as the
claim states; the upward cross happens one bar earlier, and at the most
recent bar the prior values 3 and 2 violate the condition s1 at most s2. -/
theorem CrossOver_example_last_not_true :
    (CrossOver [1, 3, 5] [2, 2, 2]).getLast? = some false := by decide

/-- Claim C2, amended: for s1 = [1, 3, 5] and s2 = [2, 2, 2] the CrossOver
output is [true, false]: True at the first output position, where 3 moves
above 2 after 1 was at most 2, and False at the last (most recent) position,
where the prior comparison 3 at most 2 fails. -/
theorem CrossOver_example_value :
    CrossOver [1, 3, 5] [2, 2, 2] = [true, false] := by decide

/-- Claim C4, counterexample: the sanitisation of the moving-average-family
constructor leaves -inf untouched, so an infinite value does reach the
kernel; the claim that both infinities are replaced by NaN fails on the one
element buffer holding -inf. -/
theorem oneArgSanitize_keeps_ninf :
    FVal.ninf ∈ oneArgSanitize [FVal.ninf] ∧ FVal.ninf ≠ FVal.nan := by decide

/-- Claim C4, amended: the moving-average-family constructors replace only
+inf by NaN before invoking the kernel, so +inf never reaches that kernel
while -inf may; the rolling-sum and absolute-value constructors replace both
+inf and -inf by 0, so no infinity reaches those kernels. -/
theorem inf_sanitization (xs : List FVal) :
    FVal.pinf ∉ oneArgSanitize xs ∧
    FVal.pinf ∉ sumSanitize xs ∧ FVal.ninf ∉ sumSanitize xs ∧
    FVal.pinf ∉ absSanitize xs ∧ FVal.ninf ∉ absSanitize xs := by
  refine ⟨?_, ?_, ?_, ?_, ?_⟩
  all_goals
    intro hmem
    simp only [oneArgSanitize, sumSanitize, absSanitize, List.map_map,
      List.mem_map, Function.comp] at hmem
    obtain ⟨v, _, hv⟩ := hmem
    split_ifs at hv
    all_goals simp_all

/-- Witness for the amended claim C4 at a buffer holding every kind of
value. -/
theorem inf_sanitization_witness :
    FVal.pinf ∉ oneArgSanitize [FVal.pinf, FVal.ninf, FVal.finite 2, FVal.nan] ∧
    FVal.pinf ∉ sumSanitize [FVal.pinf, FVal.ninf, FVal.finite 2, FVal.nan] ∧
    FVal.ninf ∉ sumSanitize [FVal.pinf, FVal.ninf, FVal.finite 2, FVal.nan] ∧
    FVal.pinf ∉ absSanitize [FVal.pinf, FVal.ninf, FVal.finite 2, FVal.nan] ∧
    FVal.ninf ∉ absSanitize [FVal.pinf, FVal.ninf, FVal.finite 2, FVal.nan] :=
  inf_sanitization [FVal.pinf, FVal.ninf, FVal.finite 2, FVal.nan]

/-- Claim C10, counterexample: a buffer holding the infinite value -inf is
left unchanged by the OneArgumentSeries constructor (only +inf entries are
rewritten), so a buffer containing an infinite value is not always
observably changed. -/
theorem oneArgInit_ninf_unchanged :
    (oneArgInit (fun s _ => s) [FVal.ninf] 5).1 = [FVal.ninf] := by decide

/-- Claim C10, amended: constructing an OneArgumentSeries from a series whose
buffer contains +inf, or a SumSeries or AbsSeries from a series whose buffer
contains +inf or -inf, writes the replacement values into the underlying
buffer of the input series, which is therefore observably changed in place
after the constructor returns. -/
theorem constructor_mutation (func : List FVal → Nat → List FVal) (xs : List FVal)
    (arg period : Nat) :
    (FVal.pinf ∈ xs → (oneArgInit func xs arg).1 ≠ xs) ∧
    ((FVal.pinf ∈ xs ∨ FVal.ninf ∈ xs) → (sumInit func xs period).1 ≠ xs) ∧
    ((FVal.pinf ∈ xs ∨ FVal.ninf ∈ xs) → (absInit xs).1 ≠ xs) := by
  refine ⟨?_, ?_, ?_⟩
  · intro h
    show oneArgSanitize xs ≠ xs
    exact map_ne_self_of_mem _ FVal.pinf xs h
      (fun v => by by_cases hv : v = FVal.pinf <;> simp [hv])
  · intro h
    show sumSanitize xs ≠ xs
    rw [sumSanitize, List.map_map]
    rcases h with h | h
    · exact map_ne_self_of_mem _ FVal.pinf xs h
        (fun v => by cases v <;> simp [Function.comp])
    · exact map_ne_self_of_mem _ FVal.ninf xs h
        (fun v => by cases v <;> simp [Function.comp])
  · intro h
    show absSanitize xs ≠ xs
    rw [absSanitize, List.map_map]
    rcases h with h | h
    · exact map_ne_self_of_mem _ FVal.pinf xs h
        (fun v => by cases v <;> simp [Function.comp])
    · exact map_ne_self_of_mem _ FVal.ninf xs h
        (fun v => by cases v <;> simp [Function.comp])

/-- Witness for the amended claim C10 at the concrete buffer [+inf]. -/
theorem constructor_mutation_witness :
    (oneArgInit (fun s _ => s) [FVal.pinf] 1).1 ≠ [FVal.pinf] ∧
    (sumInit (fun s _ => s) [FVal.pinf] 1).1 ≠ [FVal.pinf] ∧
    (absInit [FVal.pinf]).1 ≠ [FVal.pinf] :=
  ⟨(constructor_mutation (fun s _ => s) [FVal.pinf] 1 1).1 (by decide),
   (constructor_mutation (fun s _ => s) [FVal.pinf] 1 1).2.1 (Or.inl (by decide)),
   (constructor_mutation (fun s _ => s) [FVal.pinf] 1 1).2.2 (Or.inl (by decide))⟩

/-- Claim C5: on a dynamic refresh with non-empty bar data, the MACD series
invokes the three-output kernel on the close column and publishes the buffer
2 * (output1 - output2); the hypothesis records the documented contract of
the external kernel that its third output is the elementwise difference of
the first two, which is how the source obtains the value. -/
theorem MACD_publishes_two_times_diff (talibMACD : MACDKernel) (bars : List Bar)
    (self : MACDSeries) (hdyn : self.dynamicUpdate = true) (hne : 0 < bars.length)
    (hker : (talibMACD (bars.map Bar.close) self.fastperiod self.slowperiod self.signalperiod).2.2 =
        List.zipWith (fun a b => a - b)
          (talibMACD (bars.map Bar.close) self.fastperiod self.slowperiod self.signalperiod).1
          (talibMACD (bars.map Bar.close) self.fastperiod self.slowperiod self.signalperiod).2.1) :
    (MACDSeries.ensureSeriesUpdate talibMACD bars self).series =
      SeriesBuf.osc (List.zipWith (fun a b => 2 * (a - b))
        (talibMACD (bars.map Bar.close) self.fastperiod self.slowperiod self.signalperiod).1
        (talibMACD (bars.map Bar.close) self.fastperiod self.slowperiod self.signalperiod).2.1) := by
  rw [MACDSeries.ensureSeriesUpdate, if_pos hdyn, if_pos hne]
  simp only [hker, List.map_zipWith]

/-- Witness for claim C5 at a concrete kernel and bar list. -/
theorem MACD_publishes_witness :
    ((MACDSeries.init 12 26 9 SeriesBuf.missing true).ensureSeriesUpdate
        (fun _ _ _ _ => ([3, 5], [1, 2], [2, 3])) [⟨10⟩]).series =
      SeriesBuf.osc (List.zipWith (fun a b => 2 * (a - b)) [3, 5] [1, 2]) :=
  MACD_publishes_two_times_diff (fun _ _ _ _ => ([3, 5], [1, 2], [2, 3])) [⟨10⟩]
    (MACDSeries.init 12 26 9 SeriesBuf.missing true) rfl (by decide)
    (by show ([2, 3] : List ℚ) = List.zipWith (fun a b => a - b) [3, 5] [1, 2]
        norm_num)

/-- Claim C8: on a dynamic refresh with an empty bar source the MACD series
publishes the empty raw bar structure as its buffer; the embedded refresh is
a total function on this branch (no kernel is invoked), so no exception is
raised. -/
theorem MACD_empty_bars (talibMACD : MACDKernel) (bars : List Bar)
    (self : MACDSeries) (hdyn : self.dynamicUpdate = true) (hempty : bars.length = 0) :
    (MACDSeries.ensureSeriesUpdate talibMACD bars self).series = SeriesBuf.rawBars bars := by
  rw [MACDSeries.ensureSeriesUpdate, if_pos hdyn, if_neg (by omega)]

/-- Witness for claim C8 with an empty bar list. -/
theorem MACD_empty_bars_witness :
    ((MACDSeries.init 12 26 9 SeriesBuf.missing true).ensureSeriesUpdate
        (fun _ _ _ _ => ([], [], [])) []).series = SeriesBuf.rawBars [] :=
  MACD_empty_bars (fun _ _ _ _ => ([], [], [])) []
    (MACDSeries.init 12 26 9 SeriesBuf.missing true) rfl rfl

/-- Claim C9: calling a MACD series with new periods returns a fresh series
carrying the new periods with dynamic updating enabled and an absent initial
buffer, and the receiver is returned unchanged: its buffer and stored
parameters are exactly as before the call. -/
theorem MACD_call_reparametrize (self : MACDSeries) (f s g : Nat) :
    (self.call f s g).1 = self ∧
    (self.call f s g).1.series = self.series ∧
    (self.call f s g).1.fastperiod = self.fastperiod ∧
    (self.call f s g).1.slowperiod = self.slowperiod ∧
    (self.call f s g).1.signalperiod = self.signalperiod ∧
    (self.call f s g).1.dynamicUpdate = self.dynamicUpdate ∧
    (self.call f s g).2.dynamicUpdate = true ∧
    (self.call f s g).2.fastperiod = f ∧
    (self.call f s g).2.slowperiod = s ∧
    (self.call f s g).2.signalperiod = g ∧
    (self.call f s g).2.series = SeriesBuf.missing :=
  ⟨rfl, rfl, rfl, rfl, rfl, rfl, rfl, rfl, rfl, rfl, rfl⟩

/-- Claim C7: minimum and maximum raise a FormulaException directly (not
wrapped) whenever either input is empty, and on non-empty inputs they return
a successful numeric series of the common trailing length whose entry at
position k is the elementwise minimum respectively maximum of the
trailing-aligned inputs at that position. -/
theorem minimum_maximum_contract (s1 s2 : List ℚ) :
    ((s1.length = 0 ∨ s2.length = 0) →
      minimum s1 s2 = Except.error (FormulaException.direct "minimum size == 0") ∧
      maximum s1 s2 = Except.error (FormulaException.direct "maximum size == 0")) ∧
    (0 < s1.length → 0 < s2.length →
      minimum s1 s2 = Except.ok (okValue (minimum s1 s2)) ∧
      maximum s1 s2 = Except.ok (okValue (maximum s1 s2)) ∧
      (okValue (minimum s1 s2)).length = min s1.length s2.length ∧
      (okValue (maximum s1 s2)).length = min s1.length s2.length ∧
      ∀ k, k < min s1.length s2.length →
        (okValue (minimum s1 s2)).getD k 0 =
          min (s1.getD (s1.length - min s1.length s2.length + k) 0)
              (s2.getD (s2.length - min s1.length s2.length + k) 0) ∧
        (okValue (maximum s1 s2)).getD k 0 =
          max (s1.getD (s1.length - min s1.length s2.length + k) 0)
              (s2.getD (s2.length - min s1.length s2.length + k) 0)) := by
  constructor
  · intro h
    rw [minimum, if_pos h, maximum, if_pos h]
    exact ⟨rfl, rfl⟩
  · intro h1 h2
    have hc : ¬(s1.length = 0 ∨ s2.length = 0) := by
      rintro (h | h) <;> omega
    have hmin : minimum s1 s2 =
        Except.ok (List.zipWith min
          (s1.drop (s1.length - min s1.length s2.length))
          (s2.drop (s2.length - min s1.length s2.length))) := by
      rw [minimum, if_neg hc]
      rfl
    have hmax : maximum s1 s2 =
        Except.ok (List.zipWith max
          (s1.drop (s1.length - min s1.length s2.length))
          (s2.drop (s2.length - min s1.length s2.length))) := by
      rw [maximum, if_neg hc]
      rfl
    have hlen1 : min s1.length s2.length ≤ s1.length := min_le_left _ _
    have hlen2 : min s1.length s2.length ≤ s2.length := min_le_right _ _
    refine ⟨by rw [hmin]; rfl, by rw [hmax]; rfl, ?_, ?_, ?_⟩
    · rw [hmin]
      simp only [okValue, List.length_zipWith, List.length_drop]
      omega
    · rw [hmax]
      simp only [okValue, List.length_zipWith, List.length_drop]
      omega
    · intro k hk
      have ha : k < (s1.drop (s1.length - min s1.length s2.length)).length := by
        rw [List.length_drop]; omega
      have hb : k < (s2.drop (s2.length - min s1.length s2.length)).length := by
        rw [List.length_drop]; omega
      constructor
      · rw [hmin]
        show (List.zipWith min _ _).getD k 0 = _
        rw [getD_zipWith min _ _ k 0 0 0 ha hb, getD_drop, getD_drop]
      · rw [hmax]
        show (List.zipWith max _ _).getD k 0 = _
        rw [getD_zipWith max _ _ k 0 0 0 ha hb, getD_drop, getD_drop]

/-- Witness for claim C7 at s1 = [1, 5] and s2 = [2]. -/
theorem minimum_maximum_witness :
    minimum [1, 5] [2] = Except.ok (okValue (minimum [1, 5] [2])) ∧
    maximum [1, 5] [2] = Except.ok (okValue (maximum [1, 5] [2])) ∧
    (okValue (minimum [1, 5] [2])).length = min (List.length [(1 : ℚ), 5]) (List.length [(2 : ℚ)]) ∧
    (okValue (maximum [1, 5] [2])).length = min (List.length [(1 : ℚ), 5]) (List.length [(2 : ℚ)]) ∧
    ∀ k, k < min (List.length [(1 : ℚ), 5]) (List.length [(2 : ℚ)]) →
      (okValue (minimum [1, 5] [2])).getD k 0 =
        min (List.getD [(1 : ℚ), 5] (List.length [(1 : ℚ), 5] - min (List.length [(1 : ℚ), 5]) (List.length [(2 : ℚ)]) + k) 0)
            (List.getD [(2 : ℚ)] (List.length [(2 : ℚ)] - min (List.length [(1 : ℚ), 5]) (List.length [(2 : ℚ)]) + k) 0) ∧
      (okValue (maximum [1, 5] [2])).getD k 0 =
        max (List.getD [(1 : ℚ), 5] (List.length [(1 : ℚ), 5] - min (List.length [(1 : ℚ), 5]) (List.length [(2 : ℚ)]) + k) 0)
            (List.getD [(2 : ℚ)] (List.length [(2 : ℚ)] - min (List.length [(1 : ℚ), 5]) (List.length [(2 : ℚ)]) + k) 0) :=
  (minimum_maximum_contract [1, 5] [2]).2 (by decide) (by decide)

theorem fitSeries_fst_length (a b : List α) :
    (fitSeries a b).1.length = min a.length b.length := by
  simp only [fitSeries, List.length_drop]
  omega

theorem fitSeries_snd_length (a b : List α) :
    (fitSeries a b).2.length = min a.length b.length := by
  simp only [fitSeries, List.length_drop]
  omega

theorem fitSeries_fst_getElem (a b : List α) (k : Nat) :
    (fitSeries a b).1[k]? = a[a.length - min a.length b.length + k]? := by
  simp only [fitSeries, List.getElem?_drop]

theorem fitSeries_snd_getElem (a b : List α) (k : Nat) :
    (fitSeries a b).2[k]? = b[b.length - min a.length b.length + k]? := by
  simp only [fitSeries, List.getElem?_drop]

theorem lagSeries_length (s : List α) (n : Nat) :
    (lagSeries s n).length = s.length - n := by
  simp only [lagSeries, List.length_take]
  omega

theorem countLoop_length (n : Nat) :
    ∀ (j : Nat) (series : List Bool) (result : List Int),
      (countLoop n j series result).length = result.length := by
  intro j
  induction j with
  | zero => intro series result; rfl
  | succ j ih =>
    intro series result
    simp only [countLoop]
    rw [ih, List.length_set]

theorem countLoop_getD (n : Nat) :
    ∀ (j : Nat) (series : List Bool) (result : List Int), j < result.length →
      ∀ (k : Nat),
        (countLoop n j series result).getD k 0 =
          if 1 ≤ k ∧ k ≤ j then
            (trueCount (lastN (series.take (series.length - (j - k))) n) : Int)
          else result.getD k 0 := by
  intro j
  induction j with
  | zero =>
    intro series result hlen k
    simp only [countLoop]
    rw [if_neg (by omega)]
  | succ j ih =>
    intro series result hlen k
    simp only [countLoop]
    rw [ih series.dropLast _ (by rw [List.length_set]; omega) k]
    by_cases hk : 1 ≤ k ∧ k ≤ j
    · rw [if_pos hk, if_pos ⟨hk.1, by omega⟩]
      have h1 : series.dropLast.take (series.dropLast.length - (j - k)) =
          series.take (series.length - (j + 1 - k)) := by
        rw [List.dropLast_eq_take, List.take_take, List.length_take]
        congr 1
        omega
      rw [h1]
    · rw [if_neg hk]
      by_cases hk2 : k = j + 1
      · subst hk2
        rw [if_pos ⟨by omega, le_refl _⟩]
        rw [List.getD_eq_getElem?_getD, List.getElem?_set_self (by omega),
          Option.getD_some, Nat.sub_self, Nat.sub_zero, List.take_length]
      · rw [if_neg (by omega), List.getD_eq_getElem?_getD,
          List.getElem?_set_ne (by omega), ← List.getD_eq_getElem?_getD]

/-- Claim C1, counterexample: for cond = [T, F, T, T, F] and n = 3 the
source produces [0, 2], while an output in which every position holds the
count of true values among the n booleans ending at that position would be
[2, 2]: the loop of count never visits index 0, which keeps its initial
value 0 instead of 2. -/
theorem count_claim_counterexample :
    count [true, false, true, true, false] 3 = Except.ok [0, 2] ∧
    countSpec [true, false, true, true, false] 3 = [2, 2] := ⟨rfl, rfl⟩

/-- Claim C1, amended: for a boolean series cond and positive n with
len(cond) > n, count returns an integer series of length len(cond) - n; each
position i with i at least 1 holds the number of true values among the n
booleans ending at source index i + n, while position 0 keeps its initial
value 0 because the backward loop stops before reaching it.  In particular
the final valid window of the spec example yields 2. -/
theorem count_amended (cond : List Bool) (n : Nat) (h1 : 0 < n) (h2 : n < cond.length) :
    count cond n = Except.ok (okValue (count cond n)) ∧
    (okValue (count cond n)).length = cond.length - n ∧
    (okValue (count cond n)).getD 0 0 = 0 ∧
    ∀ i, 1 ≤ i → i < cond.length - n →
      (okValue (count cond n)).getD i 0 =
        (trueCount ((cond.drop (i + 1)).take n) : Int) := by
  have hok : count cond n = Except.ok (countLoop n (cond.length - n - 1) cond
      (List.replicate (cond.length - n) (0 : Int))) := by
    rw [count, if_neg (by omega)]
  have hj : cond.length - n - 1 < (List.replicate (cond.length - n) (0 : Int)).length := by
    rw [List.length_replicate]; omega
  refine ⟨by rw [hok]; rfl, ?_, ?_, ?_⟩
  · rw [hok]
    show (countLoop n (cond.length - n - 1) cond
      (List.replicate (cond.length - n) (0 : Int))).length = cond.length - n
    rw [countLoop_length, List.length_replicate]
  · rw [hok]
    show (countLoop n (cond.length - n - 1) cond
      (List.replicate (cond.length - n) (0 : Int))).getD 0 0 = 0
    rw [countLoop_getD n _ _ _ hj 0, if_neg (by omega),
      List.getD_eq_getElem?_getD, List.getElem?_replicate, if_pos (by omega)]
    rfl
  · intro i hi1 hi2
    rw [hok]
    show (countLoop n (cond.length - n - 1) cond
      (List.replicate (cond.length - n) (0 : Int))).getD i 0 =
      (trueCount ((cond.drop (i + 1)).take n) : Int)
    rw [countLoop_getD n _ _ _ hj i, if_pos ⟨hi1, by omega⟩]
    congr 2
    rw [show cond.length - (cond.length - n - 1 - i) = n + 1 + i by omega,
      lastN, List.length_take, min_eq_left (by omega : n + 1 + i ≤ cond.length),
      show n + 1 + i - n = i + 1 by omega, List.drop_take]
    congr 1
    omega

/-- Witness for the amended claim C1 at the spec example cond and n = 3. -/
theorem count_amended_witness :
    count [true, false, true, true, false] 3 =
      Except.ok (okValue (count [true, false, true, true, false] 3)) ∧
    (okValue (count [true, false, true, true, false] 3)).length =
      List.length [true, false, true, true, false] - 3 ∧
    (okValue (count [true, false, true, true, false] 3)).getD 0 0 = 0 ∧
    ∀ i, 1 ≤ i → i < List.length [true, false, true, true, false] - 3 →
      (okValue (count [true, false, true, true, false] 3)).getD i 0 =
        (trueCount (((List.drop (i + 1) [true, false, true, true, false])).take 3) : Int) :=
  count_amended [true, false, true, true, false] 3 (by decide) (by decide)

/-- Claim C3: the CrossOver output has one element fewer than the common
trailing window of the inputs, and its entry at position k is true exactly
when, in the trailing alignment, s1 exceeds s2 at aligned position k + 1
while one period prior (aligned position k) s1 was at most s2; the position
is expressed through absolute indices into the original buffers. -/
theorem CrossOver_characterization (s1 s2 : List ℚ) (k : Nat)
    (hk : k + 1 < min s1.length s2.length) :
    (CrossOver s1 s2).length = min s1.length s2.length - 1 ∧
    (CrossOver s1 s2).getD k false = crossOverSpec s1 s2 k := by
  constructor
  · simp only [CrossOver, List.length_zipWith, fitSeries_fst_length,
      fitSeries_snd_length, lagSeries_length]
    omega
  · rw [List.getD_eq_getElem?_getD]
    have key : (CrossOver s1 s2)[k]? = some (crossOverSpec s1 s2 k) := by
      simp only [CrossOver]
      rw [List.getElem?_zipWith, fitSeries_fst_getElem, fitSeries_snd_getElem]
      simp only [List.length_zipWith, fitSeries_fst_length, fitSeries_snd_length,
        lagSeries_length, min_self]
      rw [(show s1.length ⊓ s2.length -
            s1.length ⊓ s2.length ⊓ ((s1.length - 1) ⊓ (s2.length - 1)) + k = k + 1 by omega),
          (show (s1.length - 1) ⊓ (s2.length - 1) -
            s1.length ⊓ s2.length ⊓ ((s1.length - 1) ⊓ (s2.length - 1)) + k = k by omega)]
      rw [List.getElem?_zipWith]
      rw [fitSeries_fst_getElem s1 s2, fitSeries_snd_getElem s1 s2]
      rw [List.getElem?_zipWith]
      rw [fitSeries_fst_getElem (lagSeries s1 1) (lagSeries s2 1),
          fitSeries_snd_getElem (lagSeries s1 1) (lagSeries s2 1)]
      simp only [lagSeries_length]
      rw [(show s1.length - 1 - (s1.length - 1) ⊓ (s2.length - 1) + k =
            s1.length - s1.length ⊓ s2.length + k by omega),
          (show s2.length - 1 - (s1.length - 1) ⊓ (s2.length - 1) + k =
            s2.length - s1.length ⊓ s2.length + k by omega)]
      simp only [lagSeries, List.getElem?_take]
      rw [if_pos (show s1.length - s1.length ⊓ s2.length + k < s1.length - 1 by omega),
          if_pos (show s2.length - s1.length ⊓ s2.length + k < s2.length - 1 by omega)]
      simp only [crossOverSpec, List.getD_eq_getElem?_getD]
      rw [List.getElem?_eq_getElem
            (show s1.length - s1.length ⊓ s2.length + (k + 1) < s1.length by omega),
          List.getElem?_eq_getElem
            (show s2.length - s1.length ⊓ s2.length + (k + 1) < s2.length by omega),
          List.getElem?_eq_getElem
            (show s1.length - s1.length ⊓ s2.length + k < s1.length by omega),
          List.getElem?_eq_getElem
            (show s2.length - s1.length ⊓ s2.length + k < s2.length by omega)]
      rfl
    rw [key, Option.getD_some]

/-- Witness for claim C3 at s1 = [1, 3, 5], s2 = [2, 2, 2] and k = 0. -/
theorem CrossOver_characterization_witness :
    (0 : Nat) + 1 < min (List.length [(1 : ℚ), 3, 5]) (List.length [(2 : ℚ), 2, 2]) ∧
    ((CrossOver [1, 3, 5] [2, 2, 2]).length =
        min (List.length [(1 : ℚ), 3, 5]) (List.length [(2 : ℚ), 2, 2]) - 1 ∧
      (CrossOver [1, 3, 5] [2, 2, 2]).getD 0 false = crossOverSpec [1, 3, 5] [2, 2, 2] 0) :=
  ⟨by decide, CrossOver_characterization [1, 3, 5] [2, 2, 2] 0 (by decide)⟩

/-- Claim C6: hhv and llv return series of length len(s) - n + 1 whose entry
at position i is the maximum respectively minimum of the window of n
consecutive values starting at source index i: the entry belongs to the
window and bounds every window element from above respectively below. -/
theorem hhv_llv_rolling_extrema (s : List ℚ) (n : Nat) (h1 : 0 < n) (h2 : n ≤ s.length) :
    (hhv s n).length = s.length - n + 1 ∧
    (llv s n).length = s.length - n + 1 ∧
    ∀ i, i < s.length - n + 1 →
      ((hhv s n).getD i 0 ∈ (s.drop i).take n ∧
        ∀ x ∈ (s.drop i).take n, x ≤ (hhv s n).getD i 0) ∧
      ((llv s n).getD i 0 ∈ (s.drop i).take n ∧
        ∀ x ∈ (s.drop i).take n, (llv s n).getD i 0 ≤ x) := by
  have hlen : (rollingWindow s n).length = s.length - n + 1 := by
    rw [rollingWindow, List.length_map, List.length_range]
    omega
  refine ⟨?_, ?_, ?_⟩
  · rw [hhv, List.length_map, hlen]
  · rw [llv, List.length_map, hlen]
  · intro i hi
    have hwin : (rollingWindow s n)[i]? = some ((s.drop i).take n) := by
      rw [rollingWindow, List.getElem?_map, List.getElem?_range (by omega)]
      rfl
    have hh : (hhv s n).getD i 0 = rowMax ((s.drop i).take n) := by
      rw [hhv, List.getD_eq_getElem?_getD, List.getElem?_map, hwin]
      rfl
    have hl : (llv s n).getD i 0 = rowMin ((s.drop i).take n) := by
      rw [llv, List.getD_eq_getElem?_getD, List.getElem?_map, hwin]
      rfl
    have hlenw : ((s.drop i).take n).length = n := by
      rw [List.length_take, List.length_drop]
      omega
    cases hcase : (s.drop i).take n with
    | nil =>
      rw [hcase] at hlenw
      simp at hlenw
      omega
    | cons x xs =>
      rw [hh, hl, hcase]
      exact ⟨⟨foldl_max_mem x xs, le_foldl_max x xs⟩,
        ⟨foldl_min_mem x xs, foldl_min_le x xs⟩⟩

/-- Witness for claim C6 at s = [1, 3, 2] and n = 2. -/
theorem hhv_llv_witness :
    (hhv [1, 3, 2] 2).length = List.length [(1 : ℚ), 3, 2] - 2 + 1 ∧
    (llv [1, 3, 2] 2).length = List.length [(1 : ℚ), 3, 2] - 2 + 1 ∧
    ∀ i, i < List.length [(1 : ℚ), 3, 2] - 2 + 1 →
      ((hhv [1, 3, 2] 2).getD i 0 ∈ (List.drop i [(1 : ℚ), 3, 2]).take 2 ∧
        ∀ x ∈ (List.drop i [(1 : ℚ), 3, 2]).take 2, x ≤ (hhv [1, 3, 2] 2).getD i 0) ∧
      ((llv [1, 3, 2] 2).getD i 0 ∈ (List.drop i [(1 : ℚ), 3, 2]).take 2 ∧
        ∀ x ∈ (List.drop i [(1 : ℚ), 3, 2]).take 2, (llv [1, 3, 2] 2).getD i 0 ≤ x) :=
  hhv_llv_rolling_extrema [1, 3, 2] 2 (by decide) (by decide)

end Funcat
